import Mathlib

/-!
Verification development for the `@dreamer/session` library.

The development shallowly embeds the parts of the source that the
properties below speak about:

* the `session` middleware body (`src/mod.ts`, `session`), split into a
  load phase and an auto-save phase; the store and the cookie jar are
  abstracted by the list of calls (`Effect`s) the middleware issues, in
  order, plus the store's `get` responses supplied as a function;
* `SessionManager.create` (`src/mod.ts`);
* the filesystem adapter `FileSessionAdapter` (`adapters/file.ts`):
  `getFilePath` with its sanitisation, `get`, `set`, `delete`, `has` and
  the periodic `cleanup` sweep, over a file-system model mapping file
  names inside the session directory to parsed-or-malformed contents;
* the per-identifier write-serialisation queue
  (`withSessionWriteLock` / `sessionWriteLocks`, `src/mod.ts`), as a
  small-step trace semantics of the promise chain it builds.
-/

/-- Session data `{[key: string]: unknown}`: an association list from string
keys to (opaque, here string-modelled) values.  `Object.keys(d).length > 0`
corresponds to the list being nonempty. -/
abbrev SessionData := List (String × String)

/-- JavaScript string truthiness: every string except `""` is truthy. -/
def truthy (s : String) : Bool := !(s == "")

/-- The calls the middleware / manager issue against the store adapter and
the cookie jar, in program order.  `cookieSet` keeps only the value (the
cookie attribute record does not matter for the claims below). -/
inductive Effect
  | storeGet (sid : String)
  | storeSet (sid : String) (data : SessionData) (maxAge : Nat)
  | storeDelete (sid : String)
  | cookieSet (name : String) (value : String)
  | cookieRemove (name : String)
  deriving DecidableEq, Repr

/-- The middleware options that influence control flow (`SessionOptions`
minus the store / genId, which are passed separately), with the source's
defaults. -/
structure SessionOptions where
  name : String := "sessionId"
  maxAge : Nat := 86400000
  autoSave : Bool := true
  deriving Repr

/-- Result of one middleware invocation: the session object exposed as
`ctx.session` before `next()`, the identifier in scope at the save phase,
the effects issued, and the error propagated out of `next()` if any. -/
structure MwResult where
  exposed : SessionData
  finalSid : String
  effects : List Effect
  thrown : Option Nat
  deriving Repr

/-- Load phase of the `session` middleware (`src/mod.ts` lines 176-197):
read the cookie, replace a falsy identifier by `genId()`, query the store
when the identifier is truthy, and on a miss start a fresh empty session
under a second `genId()` call.  `genId k` is the result of the (k+1)-th
`genId()` call of this request.  Returns (identifier, exposed data,
effects so far). -/
def loadPhase (genId : Nat → String) (storeGet : String → Option SessionData)
    (cookieVal : Option String) : String × SessionData × List Effect :=
  let sid0 := cookieVal.getD ""
  let sid1 := if truthy sid0 then sid0 else genId 0
  let calls := if truthy sid0 then 0 else 1
  if truthy sid1 then
    match storeGet sid1 with
    | some d => (sid1, d, [Effect.storeGet sid1])
    | none => (genId calls, [], [Effect.storeGet sid1])
  else (genId calls, [], [])

/-- Auto-save phase of the `session` middleware (`src/mod.ts` lines
202-222): runs only when `autoSave && ctx.session` (an `undefined`
session skips it; an empty object is truthy and enters it); with data it
persists and sets the cookie, without data it deletes (guarded by the
identifier's truthiness) and removes the cookie.  For a single request the
`withSessionWriteLock` wrapper has no competing caller, so the guarded
effects appear inline; the queue itself is modelled separately below. -/
def savePhase (opts : SessionOptions) (sid : String) (sess : Option SessionData) :
    List Effect :=
  if opts.autoSave then
    match sess with
    | none => []
    | some d =>
      if !d.isEmpty then
        [Effect.storeSet sid d opts.maxAge, Effect.cookieSet opts.name sid]
      else
        (if truthy sid then [Effect.storeDelete sid] else []) ++
          [Effect.cookieRemove opts.name]
  else []

/-- One invocation of the middleware returned by `session(options)`
(`src/mod.ts` lines 175-223).  `down` is the downstream handler `next`:
it receives the exposed session and either throws (`Except.error`, errors
identified by a `Nat` token) or terminates with the final value of
`ctx.session` (`none` models `ctx.session = undefined`). -/
def runSession (opts : SessionOptions) (genId : Nat → String)
    (storeGet : String → Option SessionData) (cookieVal : Option String)
    (down : SessionData → Except Nat (Option SessionData)) : MwResult :=
  let res := loadPhase genId storeGet cookieVal
  match down res.2.1 with
  | Except.error e =>
      { exposed := res.2.1, finalSid := res.1, effects := res.2.2, thrown := some e }
  | Except.ok sess =>
      { exposed := res.2.1, finalSid := res.1
        effects := res.2.2 ++ savePhase opts res.1 sess, thrown := none }

/-- Abstract store contents, as the `get` view required by the adapter
contract. -/
abbrev Store := String → Option SessionData

/-- Effect of the contract's `set` on the abstract store view. -/
def storeInsert (st : Store) (sid : String) (d : SessionData) : Store :=
  fun k => if k = sid then some d else st k

/-- `this.maxAge = options.maxAge || 86400000` in the `SessionManager`
constructor: JavaScript `||` also replaces an explicit `0`. -/
def managerMaxAge (optMaxAge : Option Nat) : Nat :=
  match optMaxAge with
  | some m => if m = 0 then 86400000 else m
  | none => 86400000

/-- Shallow embedding of `SessionManager.create` (`src/mod.ts` lines
308-312): mint `genId()`, call `store.set(sessionId, data, this.maxAge)`
unconditionally, return the identifier.  Returns (returned id, store
after the call, effects). -/
def managerCreate (maxAge : Nat) (genId : String) (st : Store)
    (data : SessionData) : String × Store × List Effect :=
  (genId, storeInsert st genId data, [Effect.storeSet genId data maxAge])

/-! ### Filesystem adapter -/

/-- Content of one persisted session file, as seen through `JSON.parse`:
either a well-formed `SessionFile` `{ data, expiresAt }` or malformed text
on which `JSON.parse` throws. -/
inductive FileContent
  | valid (data : SessionData) (expiresAt : Nat)
  | malformed
  deriving DecidableEq, Repr

/-- The session directory: file names (within `sessionDir`, the directory
component being fixed per adapter) mapped to contents. -/
abbrev FileSys := List (String × FileContent)

def fsLookup (fs : FileSys) (p : String) : Option FileContent :=
  (fs.find? (fun e => e.1 = p)).map (fun e => e.2)

def fsRemove (fs : FileSys) (p : String) : FileSys :=
  fs.filter (fun e => !(e.1 == p))

def fsWrite (fs : FileSys) (p : String) (c : FileContent) : FileSys :=
  (p, c) :: fsRemove fs p

/-- The character class `[a-zA-Z0-9_-]` of `getFilePath`'s sanitisation
regular expression. -/
def safeChar (c : Char) : Bool := c.isAlphanum || c == '_' || c == '-'

/-- `sessionId.replace(/[^a-zA-Z0-9_-]/g, "_")`: every character outside
the class is replaced by an underscore. -/
def sanitizeId (sid : String) : String :=
  String.mk (sid.data.map fun c => if safeChar c then c else '_')

/-- JavaScript `s.endsWith(suffx)`: the character sequence of `suffx` is a
suffix of the character sequence of `s`. -/
def strEndsWith (s suffx : String) : Bool := decide (suffx.data <:+ s.data)

/-- `FileSessionAdapter.getFilePath` (adapters/file.ts lines 129-135),
up to the fixed directory component: sanitise, optionally apply the
configured key `prefx`, append `.json`. -/
def getFilePath (prefx : Option String) (sid : String) : String :=
  let safeId := sanitizeId sid
  match prefx with
  | some p => p ++ "_" ++ safeId ++ ".json"
  | none => safeId ++ ".json"

/-- `FileSessionAdapter.get` (adapters/file.ts lines 187-204): read the
file, parse; a missing file or a parse failure is caught and yields
`null` with the file system untouched; an expired record is deleted and
yields `null`; otherwise the stored data is returned.  Returns the result
together with the file system after the call. -/
def fileGet (prefx : Option String) (fs : FileSys) (sid : String) (now : Nat) :
    Option SessionData × FileSys :=
  let path := getFilePath prefx sid
  match fsLookup fs path with
  | none => (none, fs)
  | some FileContent.malformed => (none, fs)
  | some (FileContent.valid d exp) =>
      if exp < now then (none, fsRemove fs path) else (some d, fs)

/-- `FileSessionAdapter.set` (adapters/file.ts lines 209-223). -/
def fileSet (prefx : Option String) (fs : FileSys) (sid : String)
    (data : SessionData) (maxAge now : Nat) : FileSys :=
  fsWrite fs (getFilePath prefx sid) (FileContent.valid data (now + maxAge))

/-- `FileSessionAdapter.delete` (adapters/file.ts lines 228-235). -/
def fileDelete (prefx : Option String) (fs : FileSys) (sid : String) : FileSys :=
  fsRemove fs (getFilePath prefx sid)

/-- `FileSessionAdapter.has` (adapters/file.ts lines 240-262): a missing
or unparsable file yields `false` (caught), an expired one is deleted and
yields `false`, otherwise `true`. -/
def fileHas (prefx : Option String) (fs : FileSys) (sid : String) (now : Nat) :
    Bool × FileSys :=
  let path := getFilePath prefx sid
  match fsLookup fs path with
  | none => (false, fs)
  | some FileContent.malformed => (false, fs)
  | some (FileContent.valid _ exp) =>
      if exp < now then (false, fsRemove fs path) else (true, fs)

/-- `FileSessionAdapter.cleanup` (adapters/file.ts lines 153-182): sweep
every `.json` file in the directory; delete those whose parse fails and
those whose `expiresAt` has passed; leave other files alone. -/
def fileCleanup (fs : FileSys) (now : Nat) : FileSys :=
  fs.filter fun e =>
    if strEndsWith e.1 ".json" then
      match e.2 with
      | FileContent.malformed => false
      | FileContent.valid _ exp => if exp < now then false else true
    else true

/-! ### Helper lemmas: middleware -/

/-- The load phase only ever talks to the store through `get`. -/
theorem loadPhase_effects_storeGet (genId : Nat → String)
    (storeGet : String → Option SessionData) (cookieVal : Option String) :
    ∀ e ∈ (loadPhase genId storeGet cookieVal).2.2, ∃ sid, e = Effect.storeGet sid := by
  intro e he
  unfold loadPhase at he
  dsimp only at he
  repeat' split at he
  all_goals
    first
      | exact absurd he (List.not_mem_nil e)
      | exact ⟨_, List.mem_singleton.1 he⟩

/-- With auto-save on, an empty (but defined) session takes the
delete-and-remove-cookie branch of the save phase. -/
theorem savePhase_empty (opts : SessionOptions) (sid : String)
    (hauto : opts.autoSave = true) :
    savePhase opts sid (some []) =
      (if truthy sid then [Effect.storeDelete sid] else []) ++
        [Effect.cookieRemove opts.name] := by
  simp [savePhase, hauto]

/-- An `undefined` session skips the save phase entirely. -/
theorem savePhase_none (opts : SessionOptions) (sid : String) :
    savePhase opts sid none = [] := by
  by_cases h : opts.autoSave <;> simp [savePhase, h]

/-! ### Claims about the middleware -/

/-- Claim C3: in the auto-save phase, a request whose session data has zero
keys after downstream handling has its record deleted through the store's
`delete` (whenever the identifier in scope is truthy, which the `if
(sessionId)` guard requires) and its cookie removed; the store's `set` is
never called, so an empty record is never persisted by the middleware. -/
theorem C3_empty_save_deletes (opts : SessionOptions) (genId : Nat → String)
    (storeGet : String → Option SessionData) (cookieVal : Option String)
    (down : SessionData → Except Nat (Option SessionData))
    (hauto : opts.autoSave = true)
    (hdown : ∀ s, down s = Except.ok (some ([] : SessionData))) :
    (∀ sid d ma,
      Effect.storeSet sid d ma ∉ (runSession opts genId storeGet cookieVal down).effects) ∧
    Effect.cookieRemove opts.name ∈ (runSession opts genId storeGet cookieVal down).effects ∧
    (truthy (runSession opts genId storeGet cookieVal down).finalSid = true →
      Effect.storeDelete (runSession opts genId storeGet cookieVal down).finalSid ∈
        (runSession opts genId storeGet cookieVal down).effects) := by
  have h1 := loadPhase_effects_storeGet genId storeGet cookieVal
  have hrun : runSession opts genId storeGet cookieVal down =
      { exposed := (loadPhase genId storeGet cookieVal).2.1
        finalSid := (loadPhase genId storeGet cookieVal).1
        effects := (loadPhase genId storeGet cookieVal).2.2 ++
          ((if truthy (loadPhase genId storeGet cookieVal).1 then
              [Effect.storeDelete (loadPhase genId storeGet cookieVal).1] else []) ++
            [Effect.cookieRemove opts.name])
        thrown := none } := by
    rw [runSession, hdown, ← savePhase_empty opts _ hauto]
  rw [hrun]
  refine ⟨?_, ?_, ?_⟩
  · intro sid d ma hmem
    rcases List.mem_append.1 hmem with h | h
    · obtain ⟨s, hs⟩ := h1 _ h
      exact Effect.noConfusion hs
    · rcases List.mem_append.1 h with h' | h'
      · split at h' <;> simp at h'
      · simp at h'
  · exact List.mem_append.2 (Or.inr (List.mem_append.2 (Or.inr (List.mem_singleton.2 rfl))))
  · intro ht
    refine List.mem_append.2 (Or.inr (List.mem_append.2 (Or.inl ?_)))
    simp only [ht, if_true]
    exact List.mem_singleton.2 rfl

/-- Witness for C3 at a concrete request: cookie `"abc"`, a store holding
data under `"abc"`, downstream emptying the session. -/
theorem C3_empty_save_deletes_witness :
    (∀ sid d ma,
      Effect.storeSet sid d ma ∉ (runSession {} (fun _ => "gen") (fun _ => some [("k", "v")])
        (some "abc") (fun _ => Except.ok (some []))).effects) ∧
    Effect.cookieRemove (SessionOptions.name {}) ∈ (runSession {} (fun _ => "gen")
      (fun _ => some [("k", "v")]) (some "abc") (fun _ => Except.ok (some []))).effects ∧
    (truthy (runSession {} (fun _ => "gen") (fun _ => some [("k", "v")]) (some "abc")
        (fun _ => Except.ok (some []))).finalSid = true →
      Effect.storeDelete (runSession {} (fun _ => "gen") (fun _ => some [("k", "v")])
          (some "abc") (fun _ => Except.ok (some []))).finalSid ∈
        (runSession {} (fun _ => "gen") (fun _ => some [("k", "v")]) (some "abc")
          (fun _ => Except.ok (some []))).effects) :=
  C3_empty_save_deletes {} (fun _ => "gen") (fun _ => some [("k", "v")]) (some "abc")
    (fun _ => Except.ok (some [])) rfl (fun _ => rfl)

/-- Claim C6: a cookie whose identifier the store does not know (`get`
returns null) yields a fresh empty session and a newly minted identifier;
persistence and the cookie use the new identifier, different from the
cookie's (provided the generator does not collide with it, which is what
"newly generated" supplies), and no error is raised. -/
theorem C6_unknown_cookie_fresh_session (opts : SessionOptions) (genId : Nat → String)
    (storeGet : String → Option SessionData)
    (down : SessionData → Except Nat (Option SessionData)) (c : String)
    (d : SessionData)
    (hauto : opts.autoSave = true) (hc : truthy c = true)
    (hmiss : storeGet c = none) (hfresh : genId 0 ≠ c) (hd : d.isEmpty = false)
    (hdown : ∀ s, down s = Except.ok (some d)) :
    (runSession opts genId storeGet (some c) down).exposed = [] ∧
    (runSession opts genId storeGet (some c) down).finalSid = genId 0 ∧
    (runSession opts genId storeGet (some c) down).finalSid ≠ c ∧
    (runSession opts genId storeGet (some c) down).thrown = none ∧
    (runSession opts genId storeGet (some c) down).effects =
      [Effect.storeGet c, Effect.storeSet (genId 0) d opts.maxAge,
       Effect.cookieSet opts.name (genId 0)] := by
  have hload : loadPhase genId storeGet (some c) = (genId 0, [], [Effect.storeGet c]) := by
    unfold loadPhase
    simp [hc, hmiss]
  have hrun : runSession opts genId storeGet (some c) down =
      { exposed := [], finalSid := genId 0
        effects := [Effect.storeGet c] ++ savePhase opts (genId 0) (some d)
        thrown := none } := by
    rw [runSession, hload, hdown]
  rw [hrun]
  refine ⟨rfl, rfl, hfresh, rfl, ?_⟩
  simp [savePhase, hauto, hd]

/-- Witness for C6: cookie `"stale"`, an empty store, downstream writing
one key. -/
theorem C6_unknown_cookie_fresh_session_witness :
    (runSession {} (fun _ => "fresh") (fun _ => none) (some "stale")
      (fun _ => Except.ok (some [("k", "v")]))).exposed = [] ∧
    (runSession {} (fun _ => "fresh") (fun _ => none) (some "stale")
      (fun _ => Except.ok (some [("k", "v")]))).finalSid = (fun _ : Nat => "fresh") 0 ∧
    (runSession {} (fun _ => "fresh") (fun _ => none) (some "stale")
      (fun _ => Except.ok (some [("k", "v")]))).finalSid ≠ "stale" ∧
    (runSession {} (fun _ => "fresh") (fun _ => none) (some "stale")
      (fun _ => Except.ok (some [("k", "v")]))).thrown = none ∧
    (runSession {} (fun _ => "fresh") (fun _ => none) (some "stale")
      (fun _ => Except.ok (some [("k", "v")]))).effects =
      [Effect.storeGet "stale",
       Effect.storeSet ((fun _ : Nat => "fresh") 0) [("k", "v")] (SessionOptions.maxAge {}),
       Effect.cookieSet (SessionOptions.name {}) ((fun _ : Nat => "fresh") 0)] :=
  C6_unknown_cookie_fresh_session {} (fun _ => "fresh") (fun _ => none)
    (fun _ => Except.ok (some [("k", "v")])) "stale" [("k", "v")]
    rfl (by decide) rfl (by decide) rfl (fun _ => rfl)

/-- Claim C7: when downstream (`next`) throws, the middleware skips the
save phase entirely — every effect it issued is a load-phase `storeGet`,
with no `set`, `delete` or cookie operation — and the error is propagated
to the caller unchanged. -/
theorem C7_downstream_throw_skips_save (opts : SessionOptions) (genId : Nat → String)
    (storeGet : String → Option SessionData) (cookieVal : Option String)
    (down : SessionData → Except Nat (Option SessionData)) (err : Nat)
    (hdown : ∀ s, down s = Except.error err) :
    (runSession opts genId storeGet cookieVal down).thrown = some err ∧
    ∀ e ∈ (runSession opts genId storeGet cookieVal down).effects,
      ∃ sid, e = Effect.storeGet sid := by
  have hrun : runSession opts genId storeGet cookieVal down =
      { exposed := (loadPhase genId storeGet cookieVal).2.1
        finalSid := (loadPhase genId storeGet cookieVal).1
        effects := (loadPhase genId storeGet cookieVal).2.2
        thrown := some err } := by
    rw [runSession, hdown]
  rw [hrun]
  exact ⟨rfl, loadPhase_effects_storeGet genId storeGet cookieVal⟩

/-- Witness for C7 at a concrete request. -/
theorem C7_downstream_throw_skips_save_witness :
    (runSession {} (fun _ => "gen") (fun _ => some [("k", "v")]) (some "abc")
      (fun _ => Except.error 42)).thrown = some 42 ∧
    ∀ e ∈ (runSession {} (fun _ => "gen") (fun _ => some [("k", "v")]) (some "abc")
        (fun _ => Except.error 42)).effects,
      ∃ sid, e = Effect.storeGet sid :=
  C7_downstream_throw_skips_save {} (fun _ => "gen") (fun _ => some [("k", "v")])
    (some "abc") (fun _ => Except.error 42) 42 (fun _ => rfl)

/-- Claim C10: if downstream leaves `ctx.session` `undefined`, the
`autoSave && ctx.session` guard skips the whole save phase even when
auto-save is enabled: no `set`, no `delete`, no cookie set or removal —
only the load phase's `storeGet` may have happened. -/
theorem C10_undefined_session_skips_save (opts : SessionOptions) (genId : Nat → String)
    (storeGet : String → Option SessionData) (cookieVal : Option String)
    (down : SessionData → Except Nat (Option SessionData))
    (hdown : ∀ s, down s = Except.ok none) :
    (runSession opts genId storeGet cookieVal down).thrown = none ∧
    ∀ e ∈ (runSession opts genId storeGet cookieVal down).effects,
      ∃ sid, e = Effect.storeGet sid := by
  have hrun : runSession opts genId storeGet cookieVal down =
      { exposed := (loadPhase genId storeGet cookieVal).2.1
        finalSid := (loadPhase genId storeGet cookieVal).1
        effects := (loadPhase genId storeGet cookieVal).2.2
        thrown := none } := by
    rw [runSession, hdown]
    simp only [savePhase_none, List.append_nil]
  rw [hrun]
  exact ⟨rfl, loadPhase_effects_storeGet genId storeGet cookieVal⟩

/-- Witness for C10 at a concrete request with auto-save enabled. -/
theorem C10_undefined_session_skips_save_witness :
    (runSession {} (fun _ => "gen") (fun _ => some [("k", "v")]) (some "abc")
      (fun _ => Except.ok none)).thrown = none ∧
    ∀ e ∈ (runSession {} (fun _ => "gen") (fun _ => some [("k", "v")]) (some "abc")
        (fun _ => Except.ok none)).effects,
      ∃ sid, e = Effect.storeGet sid :=
  C10_undefined_session_skips_save {} (fun _ => "gen") (fun _ => some [("k", "v")])
    (some "abc") (fun _ => Except.ok none) (fun _ => rfl)

/-- Claim C8: `SessionManager.create` mints the generated identifier,
persists the data through the store's `set` with the configured `maxAge`
(as set by the constructor), and returns that identifier — for every
`data` argument, the empty one included, unlike the middleware's save
path. -/
theorem C8_manager_create_persists_unconditionally (optMaxAge : Option Nat)
    (genId : String) (st : Store) (data : SessionData) :
    (managerCreate (managerMaxAge optMaxAge) genId st data).1 = genId ∧
    (managerCreate (managerMaxAge optMaxAge) genId st data).2.1 genId = some data ∧
    (managerCreate (managerMaxAge optMaxAge) genId st data).2.2 =
      [Effect.storeSet genId data (managerMaxAge optMaxAge)] :=
  ⟨rfl, by simp [managerCreate, storeInsert], rfl⟩

/-! ### Claims about the filesystem adapter -/

/-- Claim C9: `getFilePath`'s sanitisation is not injective — the distinct
identifiers `"a.b"` and `"a_b"` address the same file, so `set` under one
is observable via `get` (and `has`, `delete`) under the other. -/
theorem C9_sanitize_collision :
    "a.b" ≠ "a_b" ∧
    getFilePath none "a.b" = getFilePath none "a_b" ∧
    (fileGet none (fileSet none [] "a.b" [("k", "v")] 1000 0) "a_b" 0).1 =
      some [("k", "v")] ∧
    (fileHas none (fileSet none [] "a.b" [("k", "v")] 1000 0) "a_b" 0).1 = true ∧
    fileDelete none (fileSet none [] "a.b" [("k", "v")] 1000 0) "a_b" = [] := by
  decide

/-- Counterexample to claim C4 as stated: a corrupt (malformed-JSON) file
read through `FileSessionAdapter.get` yields `null` but is NOT deleted by
the read — the `catch` block just returns `null`, leaving the file
exactly as it was. -/
theorem C4_counterexample :
    (fileGet none [("abc.json", FileContent.malformed)] "abc" 1000).1 = none ∧
    (fileGet none [("abc.json", FileContent.malformed)] "abc" 1000).2 =
      [("abc.json", FileContent.malformed)] ∧
    fsLookup (fileGet none [("abc.json", FileContent.malformed)] "abc" 1000).2
      "abc.json" = some FileContent.malformed := by
  decide

/-- Every path `getFilePath` produces carries the `.json` extension. -/
theorem getFilePath_json (prefx : Option String) (sid : String) :
    strEndsWith (getFilePath prefx sid) ".json" = true := by
  cases prefx <;>
    · simp only [getFilePath, strEndsWith, decide_eq_true_eq, String.data_append]
      exact List.suffix_append _ _

/-- Claim C4 (amended): reading a malformed record returns `null` and
leaves the file system untouched; the corrupt file is instead removed by
the periodic `cleanup` sweep.  `hnd` says the directory holds each file
name once, as a real directory does. -/
theorem C4_amended_corrupt_read (prefx : Option String) (fs : FileSys)
    (sid : String) (now : Nat)
    (hnd : (fs.map Prod.fst).Nodup)
    (h : fsLookup fs (getFilePath prefx sid) = some FileContent.malformed) :
    fileGet prefx fs sid now = (none, fs) ∧
    fsLookup (fileCleanup fs now) (getFilePath prefx sid) = none := by
  constructor
  · simp only [fileGet]
    rw [h]
  · obtain ⟨a, hfind, hmal⟩ : ∃ a, fs.find? (fun e => e.1 = getFilePath prefx sid) = some a ∧
        a.2 = FileContent.malformed := by
      unfold fsLookup at h
      cases hf : fs.find? (fun e => e.1 = getFilePath prefx sid) with
      | none => rw [hf] at h; exact absurd h (by simp)
      | some a =>
          rw [hf] at h
          exact ⟨a, rfl, by simpa using h⟩
    have hamem : a ∈ fs := List.mem_of_find?_eq_some hfind
    have hapath : a.1 = getFilePath prefx sid := by
      have := List.find?_some hfind
      simpa using this
    unfold fsLookup
    rw [Option.map_eq_none']
    rw [List.find?_eq_none]
    intro e he hp
    have hemem : e ∈ fs := List.mem_filter.1 he |>.1
    have hkeep := List.mem_filter.1 he |>.2
    have hepath : e.1 = getFilePath prefx sid := by simpa using hp
    have hea : e = a :=
      List.inj_on_of_nodup_map hnd hemem hamem (hepath.trans hapath.symm)
    rw [hea, hmal, hapath, getFilePath_json prefx sid] at hkeep
    simp at hkeep

/-! ### Write-serialisation queue (`withSessionWriteLock` / `sessionWriteLocks`)

A population of calls ("tasks") to `withSessionWriteLock` is given by
`sids : List String`: task `t` is the (t+1)-th call to arrive and
`sids[t]?` is the identifier it was called with.  Arrival is the
synchronous prelude of `withSessionWriteLock` — read the current tail
`prev` from the map, build `myLock`, publish `chain = prev.then(() =>
myLock)` as the new tail — which runs atomically before the first
`await`, so the tail each task awaited is the chain of the latest earlier
task with the same identifier (`prevIdx`).  The asynchronous rest is a
trace of scheduling events: `start t` is the moment `fn` begins running
(the `await prev` resumed), `finish t ok` the moment `fn` completes
(`ok = false` meaning it threw; the `finally` runs `release()` either
way, which is why resolution below does not look at the flag). -/

inductive QEvent
  | start (t : Nat)
  | finish (t : Nat) (ok : Bool)
  deriving DecidableEq, Repr

/-- Task `t`'s `fn` has begun. -/
def startedB (tr : List QEvent) (t : Nat) : Bool :=
  tr.any fun e => e == QEvent.start t

/-- Task `t`'s `fn` has completed (normally or by throwing); in either
case its `release()` has run and `myLock` is resolved. -/
def finishedB (tr : List QEvent) (t : Nat) : Bool :=
  tr.any fun e =>
    match e with
    | QEvent.finish u _ => u == t
    | _ => false

/-- Task `t`'s `fn` is currently executing. -/
def runningB (tr : List QEvent) (t : Nat) : Bool :=
  startedB tr t && !finishedB tr t

/-- The task whose `chain` was the map's tail when task `t` arrived: the
latest earlier arrival with the same identifier, if any (otherwise `t`
awaited the already-resolved `Promise.resolve()`). -/
def prevIdx (sids : List String) (t : Nat) : Option Nat :=
  ((List.range t).filter fun u => sids[u]? == sids[t]?).getLast?

/-- Resolution of the `chain` promise task `t` published
(`prev.then(() => myLock)`): resolved once the previous tail is resolved
and task `t`'s own `release()` has run.  The recursion follows the
promise chain through `prevIdx`; the first argument is structural fuel,
`fuel > t` always sufficing because `prevIdx` strictly decreases. -/
def chainResolvedAux (sids : List String) (tr : List QEvent) : Nat → Nat → Bool
  | 0, _ => true
  | fuel + 1, t =>
    (match prevIdx sids t with
     | none => true
     | some p => chainResolvedAux sids tr fuel p) && finishedB tr t

/-- Whether the `chain` of task `t` is resolved in trace `tr`. -/
def chainResolvedB (sids : List String) (tr : List QEvent) (t : Nat) : Bool :=
  chainResolvedAux sids tr (t + 1) t

/-- Whether event `e` can occur after history `pre`: `start t` requires a
real task that has not already run and whose awaited tail (`prevIdx`'s
chain, if any) is resolved; `finish t _` requires `t` to be running. -/
def okEvent (sids : List String) (pre : List QEvent) : QEvent → Bool
  | QEvent.start t =>
      decide (t < sids.length) && !startedB pre t &&
      (match prevIdx sids t with
       | none => true
       | some p => chainResolvedB sids pre p)
  | QEvent.finish t _ => startedB pre t && !finishedB pre t

def validAux (sids : List String) (pre : List QEvent) : List QEvent → Bool
  | [] => true
  | e :: rest => okEvent sids pre e && validAux sids (pre ++ [e]) rest

/-- `tr` is a possible scheduling of the tasks `sids` under the promise
semantics of `withSessionWriteLock`. -/
def validTrace (sids : List String) (tr : List QEvent) : Bool :=
  validAux sids [] tr

/-- Keys held by the `sessionWriteLocks` map once every call in `sids`
has arrived: each call executes `sessionWriteLocks.set(sessionId, chain)`
and no code path ever deletes a key, so the keys are exactly the
identifiers used so far (in first-use order, as JavaScript `Map.set`
keeps insertion order), independently of which operations completed. -/
def lockMapKeys (sids : List String) : List String :=
  sids.foldl (fun ks s => if s ∈ ks then ks else ks ++ [s]) []

/-- `finish` flags (whether the wrapped operation threw) erased: the
queue's bookkeeping never inspects them. -/
def stripFlags : QEvent → QEvent
  | QEvent.finish t _ => QEvent.finish t true
  | e => e

/-! #### Queue lemmas -/

theorem prevIdx_lt {sids : List String} {t p : Nat} (h : prevIdx sids t = some p) :
    p < t := by
  have hmem := List.mem_of_getLast?_eq_some h
  exact List.mem_range.1 (List.mem_filter.1 hmem).1

theorem prevIdx_sameSid {sids : List String} {t p : Nat}
    (h : prevIdx sids t = some p) : sids[p]? = sids[t]? := by
  have hmem := List.mem_of_getLast?_eq_some h
  have := (List.mem_filter.1 hmem).2
  exact eq_of_beq this

theorem prevIdx_maximal {sids : List String} {t p u : Nat}
    (h : prevIdx sids t = some p) (hu : u < t) (hs : sids[u]? = sids[t]?) :
    u ≤ p := by
  have humem : u ∈ (List.range t).filter fun v => sids[v]? == sids[t]? :=
    List.mem_filter.2 ⟨List.mem_range.2 hu, beq_iff_eq.2 hs⟩
  obtain ⟨ys, hys⟩ := List.getLast?_eq_some_iff.1 h
  have hpw : ((List.range t).filter fun v => sids[v]? == sids[t]?).Pairwise (· < ·) :=
    (List.pairwise_lt_range t).filter _
  rw [hys] at humem hpw
  rcases List.mem_append.1 humem with h' | h'
  · have := (List.pairwise_append.1 hpw).2.2 u h' p (List.mem_singleton.2 rfl)
    exact Nat.le_of_lt this
  · rw [List.mem_singleton.1 h']

theorem prevIdx_none {sids : List String} {t : Nat} (h : prevIdx sids t = none) :
    ∀ u, u < t → sids[u]? ≠ sids[t]? := by
  intro u hu hs
  rw [prevIdx, List.getLast?_eq_none_iff] at h
  have hm : u ∈ (List.range t).filter fun v => sids[v]? == sids[t]? :=
    List.mem_filter.2 ⟨List.mem_range.2 hu, beq_iff_eq.2 hs⟩
  rw [h] at hm
  exact absurd hm (List.not_mem_nil u)

/-- Fuel irrelevance: any fuel above the task index computes the same
resolution state, so the `fuel = 0` base case is unreachable from
`chainResolvedB`. -/
theorem chainResolvedAux_fuel (sids : List String) (tr : List QEvent) :
    ∀ f₁ f₂ t, t < f₁ → t < f₂ →
      chainResolvedAux sids tr f₁ t = chainResolvedAux sids tr f₂ t := by
  intro f₁
  induction f₁ with
  | zero => intro f₂ t h₁ _; exact absurd h₁ (Nat.not_lt_zero t)
  | succ f ih =>
      intro f₂ t h₁ h₂
      cases f₂ with
      | zero => exact absurd h₂ (Nat.not_lt_zero t)
      | succ g =>
          simp only [chainResolvedAux]
          cases hp : prevIdx sids t with
          | none => rfl
          | some p =>
              have hpt : p < t := prevIdx_lt hp
              dsimp only
              rw [ih g p (by omega) (by omega)]

/-- The one-step unfolding of chain resolution that mirrors
`chain = prev.then(() => myLock)`. -/
theorem chainResolvedB_unfold (sids : List String) (tr : List QEvent) (t : Nat) :
    chainResolvedB sids tr t =
      ((match prevIdx sids t with
        | none => true
        | some p => chainResolvedB sids tr p) && finishedB tr t) := by
  have h1 : chainResolvedB sids tr t =
      ((match prevIdx sids t with
        | none => true
        | some p => chainResolvedAux sids tr t p) && finishedB tr t) := rfl
  rw [h1]
  cases hp : prevIdx sids t with
  | none => rfl
  | some p =>
      have hpt : p < t := prevIdx_lt hp
      dsimp only
      rw [chainResolvedAux_fuel sids tr t (p + 1) p (by omega) (by omega)]
      rfl

/-- Characterisation: the chain of `t` is resolved exactly when every
task up to `t` with the same identifier has finished (with either flag). -/
theorem chainResolvedB_iff (sids : List String) (tr : List QEvent) :
    ∀ t, chainResolvedB sids tr t = true ↔
      ∀ u, u ≤ t → sids[u]? = sids[t]? → finishedB tr u = true := by
  intro t
  induction t using Nat.strong_induction_on with
  | _ t ih =>
    rw [chainResolvedB_unfold, Bool.and_eq_true]
    constructor
    · rintro ⟨hm, hf⟩ u hu hs
      rcases Nat.lt_or_eq_of_le hu with hlt | heq
      · cases hp : prevIdx sids t with
        | none => exact absurd hs (prevIdx_none hp u hlt)
        | some p =>
            rw [hp] at hm
            have hup : u ≤ p := prevIdx_maximal hp hlt hs
            have hps : sids[p]? = sids[t]? := prevIdx_sameSid hp
            exact (ih p (prevIdx_lt hp)).1 hm u hup (hs.trans hps.symm)
      · rw [heq]; exact hf
    · intro h
      refine ⟨?_, h t (Nat.le_refl t) rfl⟩
      cases hp : prevIdx sids t with
      | none => rfl
      | some p =>
          have hps : sids[p]? = sids[t]? := prevIdx_sameSid hp
          have hpt : p < t := prevIdx_lt hp
          exact (ih p hpt).2 fun u hu hs =>
            h u (Nat.le_trans hu (Nat.le_of_lt hpt)) (hs.trans hps)

theorem validAux_append (sids : List String) (pre l₁ l₂ : List QEvent) :
    validAux sids pre (l₁ ++ l₂) =
      (validAux sids pre l₁ && validAux sids (pre ++ l₁) l₂) := by
  induction l₁ generalizing pre with
  | nil => simp [validAux]
  | cons e rest ih =>
      simp only [List.cons_append, validAux, List.append_eq]
      rw [ih (pre ++ [e]), List.append_assoc, List.singleton_append, Bool.and_assoc]

/-- In a valid trace, the event at any position was enabled after the
history before it. -/
theorem validAux_middle (sids : List String) (pre l₁ : List QEvent) (e : QEvent)
    (l₂ : List QEvent) (h : validAux sids pre (l₁ ++ e :: l₂) = true) :
    okEvent sids (pre ++ l₁) e = true := by
  rw [validAux_append, Bool.and_eq_true] at h
  obtain ⟨_, h₂⟩ := h
  simp only [validAux, Bool.and_eq_true] at h₂
  exact h₂.1

theorem startedB_append (tr₁ tr₂ : List QEvent) (t : Nat) :
    startedB (tr₁ ++ tr₂) t = (startedB tr₁ t || startedB tr₂ t) := by
  simp [startedB, List.any_append]

theorem finishedB_append (tr₁ tr₂ : List QEvent) (t : Nat) :
    finishedB (tr₁ ++ tr₂) t = (finishedB tr₁ t || finishedB tr₂ t) := by
  simp [finishedB, List.any_append]

theorem startedB_iff (tr : List QEvent) (t : Nat) :
    startedB tr t = true ↔ QEvent.start t ∈ tr := by
  unfold startedB
  rw [List.any_eq_true]
  constructor
  · rintro ⟨e, he, hp⟩
    have : e = QEvent.start t := eq_of_beq hp
    rw [this] at he
    exact he
  · intro h
    exact ⟨QEvent.start t, h, beq_self_eq_true _⟩

/-- FIFO: in a valid trace of calls `sids`, whenever `start j` occurs,
every earlier-arrived call `i` on the same identifier has already
finished before that point. -/
theorem queue_fifo (sids : List String) (pre suf : List QEvent) (i j : Nat)
    (hv : validTrace sids (pre ++ QEvent.start j :: suf) = true)
    (hij : i < j) (hs : sids[i]? = sids[j]?) :
    finishedB pre i = true := by
  have hok : okEvent sids ([] ++ pre) (QEvent.start j) = true :=
    validAux_middle sids [] pre (QEvent.start j) suf hv
  rw [List.nil_append] at hok
  simp only [okEvent, Bool.and_eq_true] at hok
  obtain ⟨⟨_, _⟩, hm⟩ := hok
  cases hp : prevIdx sids j with
  | none => exact absurd hs (prevIdx_none hp i hij)
  | some p =>
      rw [hp] at hm
      have hip : i ≤ p := prevIdx_maximal hp hij hs
      have hps : sids[p]? = sids[j]? := prevIdx_sameSid hp
      exact (chainResolvedB_iff sids pre p).1 hm i hip (hs.trans hps.symm)

/-- Mutual exclusion for `i < j` on the same identifier. -/
theorem queue_mutex_lt (sids : List String) (pre suf : List QEvent) (i j : Nat)
    (hv : validTrace sids (pre ++ suf) = true) (hij : i < j)
    (hs : sids[i]? = sids[j]?) :
    ¬(runningB pre i = true ∧ runningB pre j = true) := by
  rintro ⟨hri, hrj⟩
  simp only [runningB, Bool.and_eq_true, Bool.not_eq_true'] at hri hrj
  obtain ⟨hsi, hfi⟩ := hri
  obtain ⟨hsj, _⟩ := hrj
  obtain ⟨a, b, hab⟩ := List.append_of_mem ((startedB_iff pre j).1 hsj)
  rw [hab] at hv hfi
  have hv' : validTrace sids (a ++ QEvent.start j :: (b ++ suf)) = true := by
    simpa [List.append_assoc] using hv
  have hfin : finishedB a i = true := queue_fifo sids a (b ++ suf) i j hv' hij hs
  rw [finishedB_append, hfin] at hfi
  simp at hfi

/-- Mutual exclusion, both orders. -/
theorem queue_mutex (sids : List String) (pre suf : List QEvent) (i j : Nat)
    (hv : validTrace sids (pre ++ suf) = true) (hij : i ≠ j)
    (hs : sids[i]? = sids[j]?) :
    ¬(runningB pre i = true ∧ runningB pre j = true) := by
  rcases Nat.lt_or_ge i j with h | h
  · exact queue_mutex_lt sids pre suf i j hv h hs
  · have hji : j < i := Nat.lt_of_le_of_ne h (Ne.symm hij)
    intro hand
    exact queue_mutex_lt sids pre suf j i hv hji hs.symm ⟨hand.2, hand.1⟩

theorem startedB_strip (tr : List QEvent) (t : Nat) :
    startedB (tr.map stripFlags) t = startedB tr t := by
  unfold startedB
  rw [List.any_map]
  congr 1
  funext e
  cases e with
  | start u => rfl
  | finish u ok =>
      show (stripFlags (QEvent.finish u ok) == QEvent.start t) =
        (QEvent.finish u ok == QEvent.start t)
      rw [beq_eq_false_iff_ne.2 (fun h => QEvent.noConfusion h),
        beq_eq_false_iff_ne.2 (fun h => QEvent.noConfusion h)]

theorem finishedB_strip (tr : List QEvent) (t : Nat) :
    finishedB (tr.map stripFlags) t = finishedB tr t := by
  unfold finishedB
  rw [List.any_map]
  congr 1
  funext e
  cases e <;> rfl

theorem chainResolvedAux_strip (sids : List String) (tr : List QEvent) :
    ∀ fuel t, chainResolvedAux sids (tr.map stripFlags) fuel t =
      chainResolvedAux sids tr fuel t := by
  intro fuel
  induction fuel with
  | zero => intro t; rfl
  | succ f ih =>
      intro t
      simp only [chainResolvedAux, finishedB_strip]
      cases hp : prevIdx sids t with
      | none => rfl
      | some p =>
          dsimp only
          rw [ih p]

theorem okEvent_strip (sids : List String) (pre : List QEvent) (e : QEvent) :
    okEvent sids (pre.map stripFlags) (stripFlags e) = okEvent sids pre e := by
  cases e with
  | start t =>
      show okEvent sids (pre.map stripFlags) (QEvent.start t) = _
      simp only [okEvent, startedB_strip]
      cases hp : prevIdx sids t with
      | none => rfl
      | some p =>
          dsimp only
          unfold chainResolvedB
          rw [chainResolvedAux_strip]
  | finish t ok =>
      show okEvent sids (pre.map stripFlags) (QEvent.finish t true) = _
      simp only [okEvent, startedB_strip, finishedB_strip]

theorem validAux_strip (sids : List String) :
    ∀ (l pre : List QEvent),
      validAux sids (pre.map stripFlags) (l.map stripFlags) = validAux sids pre l := by
  intro l
  induction l with
  | nil => intro pre; rfl
  | cons e rest ih =>
      intro pre
      simp only [List.map_cons, validAux, okEvent_strip]
      have hmap : (pre.map stripFlags) ++ [stripFlags e] = (pre ++ [e]).map stripFlags := by
        simp
      rw [hmap, ih (pre ++ [e])]

/-! ### Claims about the queue -/

/-- Claim C1: for a fixed identifier, concurrently issued
`withSessionWriteLock` operations run one at a time (mutual exclusion:
two same-identifier tasks are never simultaneously running) and complete
in strict arrival (FIFO) order (whenever a later-arrived task starts,
every earlier same-identifier task has already finished); operations on
different identifiers are unordered and can overlap, witnessed by a valid
trace in which two tasks with different identifiers run simultaneously. -/
theorem C1_fifo_order_and_isolation :
    (∀ (sids : List String) (pre suf : List QEvent) (i j : Nat),
        validTrace sids (pre ++ QEvent.start j :: suf) = true →
        i < j → sids[i]? = sids[j]? →
        finishedB pre i = true) ∧
    (∀ (sids : List String) (pre suf : List QEvent) (i j : Nat),
        validTrace sids (pre ++ suf) = true → i ≠ j → sids[i]? = sids[j]? →
        ¬(runningB pre i = true ∧ runningB pre j = true)) ∧
    (∃ tr : List QEvent,
        validTrace ["a", "b"] tr = true ∧
        runningB (tr.take 2) 0 = true ∧ runningB (tr.take 2) 1 = true ∧
        finishedB tr 0 = true ∧ finishedB tr 1 = true) :=
  ⟨queue_fifo, queue_mutex,
   ⟨[QEvent.start 0, QEvent.start 1, QEvent.finish 0 true, QEvent.finish 1 true],
    by decide⟩⟩

/-- Witness for C1, FIFO part, at a concrete trace: two calls on
identifier `"s"`; when the second starts, the first has finished. -/
theorem C1_fifo_order_and_isolation_witness :
    finishedB [QEvent.start 0, QEvent.finish 0 true] 0 = true :=
  C1_fifo_order_and_isolation.1 ["s", "s"] [QEvent.start 0, QEvent.finish 0 true] []
    0 1 (by decide) (by decide) (by decide)

/-- Claim C2: the queue slot is released on every exit path.  First
conjunct: whenever every earlier same-identifier task has finished — with
either flag, a throwing `fn` included, since `release()` runs in
`finally` — the next queued task is enabled, so a failing operation never
deadlocks its successors.  Second conjunct: trace validity is oblivious
to the success/failure flags entirely (the error is delivered to the
failing call's own caller and affects no other pending operation). -/
theorem C2_slot_released_on_error :
    (∀ (sids : List String) (tr : List QEvent) (t : Nat),
        validTrace sids tr = true → t < sids.length → startedB tr t = false →
        (∀ u, u < t → sids[u]? = sids[t]? → finishedB tr u = true) →
        validTrace sids (tr ++ [QEvent.start t]) = true) ∧
    (∀ (sids : List String) (tr : List QEvent),
        validTrace sids (tr.map stripFlags) = validTrace sids tr) := by
  constructor
  · intro sids tr t hv hlen hns hfin
    unfold validTrace at hv ⊢
    rw [validAux_append, List.nil_append, hv, Bool.true_and]
    simp only [validAux, Bool.and_true]
    simp only [okEvent]
    rw [hns, decide_eq_true hlen]
    simp only [Bool.not_false, Bool.true_and]
    cases hp : prevIdx sids t with
    | none => rfl
    | some p =>
        dsimp only
        have hps : sids[p]? = sids[t]? := prevIdx_sameSid hp
        have hpt : p < t := prevIdx_lt hp
        exact (chainResolvedB_iff sids tr p).2 fun u hu hs =>
          hfin u (Nat.lt_of_le_of_lt hu hpt) (hs.trans hps)
  · intro sids tr
    have h := validAux_strip sids tr []
    simpa [validTrace] using h

/-- Witness for C2 at a concrete trace: the first call on `"s"` threw
(`finish 0 false`), and the second call is nevertheless enabled. -/
theorem C2_slot_released_on_error_witness :
    validTrace ["s", "s"]
      ([QEvent.start 0, QEvent.finish 0 false] ++ [QEvent.start 1]) = true :=
  C2_slot_released_on_error.1 ["s", "s"] [QEvent.start 0, QEvent.finish 0 false] 1
    (by decide) (by decide) (by decide) (by decide)

theorem lockMapKeys_foldl_mem (s : String) :
    ∀ (l acc : List String),
      (s ∈ l.foldl (fun ks x => if x ∈ ks then ks else ks ++ [x]) acc ↔
        s ∈ acc ∨ s ∈ l) := by
  intro l
  induction l with
  | nil => intro acc; simp
  | cons x rest ih =>
      intro acc
      simp only [List.foldl_cons]
      by_cases hx : x ∈ acc
      · rw [if_pos hx, ih]
        simp only [List.mem_cons]
        constructor
        · rintro (h | h)
          · exact Or.inl h
          · exact Or.inr (Or.inr h)
        · rintro (h | h | h)
          · exact Or.inl h
          · rw [h]; exact Or.inl hx
          · exact Or.inr h
      · rw [if_neg hx, ih]
        simp only [List.mem_append, List.mem_singleton, List.mem_cons]
        tauto

/-- Counterexample to claim C5 as stated: with the single call on
identifier `"a"`, the trace in which that call has fully completed is
valid and leaves no queued work — yet `sessionWriteLocks` still holds the
entry for `"a"` (the map is only ever `set`, never deleted), so the
mapping does not become empty once all operations complete. -/
theorem C5_counterexample :
    validTrace ["a"] [QEvent.start 0, QEvent.finish 0 true] = true ∧
    finishedB [QEvent.start 0, QEvent.finish 0 true] 0 = true ∧
    lockMapKeys ["a"] = ["a"] := by decide

/-- Claim C5 (amended): the `sessionWriteLocks` map retains one entry per
identifier ever passed to `withSessionWriteLock`, regardless of which
operations have completed — its keys are exactly the identifiers used so
far, so its size is bounded by the number of distinct historical
identifiers, not by the concurrently in-flight ones; only the resolved
promise chain hanging off an entry becomes garbage. -/
theorem C5_amended_map_retains_history (sids : List String) (s : String) :
    s ∈ lockMapKeys sids ↔ s ∈ sids := by
  unfold lockMapKeys
  rw [lockMapKeys_foldl_mem]
  simp

/-- Witness for the amended C4 at a concrete directory holding one
corrupt session file. -/
theorem C4_amended_corrupt_read_witness :
    fileGet none [("abc.json", FileContent.malformed)] "abc" 5 =
      (none, [("abc.json", FileContent.malformed)]) ∧
    fsLookup (fileCleanup [("abc.json", FileContent.malformed)] 5)
      (getFilePath none "abc") = none :=
  C4_amended_corrupt_read none [("abc.json", FileContent.malformed)] "abc" 5
    (by decide) (by decide)
